import Mathlib

/-
Shallow embedding of the Work Grand Prix application logic.

Sources: src/main.js (augmented variant: points, combined leaderboard sort)
and src/unnamed/part_000 (base variant: duration-only leaderboard). The task
state machine (start / stop / pit-stop / finish handlers) is identical in the
two variants except that the augmented finish handler also awards points.

Modelling conventions:
- JS timestamps (Date.now(), parsed dates) are integers (milliseconds).
- Nullable JS number fields are Option Int; JS truthiness of such a field
  (null, undefined and 0 are falsy) is the function truthy below.
- JS arithmetic coercion of null to 0 in subtraction is Option.getD 0.
- Task status strings map to the Status inductive: notStarted is the string
  written as Not started, running is Running, paused is Paused, finished is
  Finished.
- The mapping records is keyed by date strings; a record key is represented
  by the timestamp that new Date(dateKey + T00:00:00) parses it to, so the
  window comparison recordDate >= monday && recordDate <= saturday is an
  integer comparison.
- Array.prototype.sort with a numeric comparator is a stable sort whose
  output is ordered by the comparator; it is modelled with List.mergeSort.
-/

namespace WGP

/-- JS truthiness of a nullable number field: null or undefined (none) and 0
are falsy, every other number is truthy. -/
def truthy : Option Int → Bool
  | none => false
  | some v => v != 0

/-- JS expression a || b for numbers a and b (a is returned unless it is 0). -/
def jsOr (a b : Int) : Int := if a = 0 then b else a

/-- Task status values of the source (the strings Not started, Running,
Paused, Finished). -/
inductive Status where
  | notStarted
  | running
  | paused
  | finished
deriving DecidableEq

/-- A task object as created by the addBtn handler and mutated by the
start / stop / pit / finish handlers in renderSectorTasks. -/
structure Task where
  id : String := ""
  name : String := ""
  status : Status := .notStarted
  startTime : Option Int := none
  endTime : Option Int := none
  pauseDuration : Int := 0
  pauseStart : Option Int := none
  duration : Option Int := none
deriving DecidableEq

/-- Constant SECTOR_DURATION_MS = 45 * 60 * 1000. -/
def SECTOR_DURATION_MS : Int := 45 * 60 * 1000

/-- Constant MIN_TASKS = 4. -/
def MIN_TASKS : Nat := 4

/-- Constant MAX_TASKS = 15. -/
def MAX_TASKS : Nat := 15

/-- Constant POINTS_PER_TASK = 25 (augmented variant, src/main.js line 34). -/
def POINTS_PER_TASK : Int := 25

/-- The startBtn click handler (src/main.js lines 982-1012). It aborts when
the sector has not started (falsy sectorData.startTime) or the task is
Finished; a Not started task begins Running with fresh timing fields; a
Paused task drains pauseStart into pauseDuration (when pauseStart is truthy)
and resumes Running; a Running task is left alone. -/
def startClick (sectorStartTime : Option Int) (now : Int) (t : Task) : Task :=
  if !truthy sectorStartTime then t
  else match t.status with
  | .finished => t
  | .notStarted =>
      { t with startTime := some now, pauseDuration := 0, pauseStart := none,
               status := .running }
  | .paused =>
      if truthy t.pauseStart then
        { t with pauseDuration := t.pauseDuration + (now - t.pauseStart.getD 0),
                 pauseStart := none, status := .running }
      else { t with status := .running }
  | .running => t

/-- The stopBtn click handler (src/main.js lines 1017-1030): a no-op on a
Not started task, otherwise resets the task, clearing all timing fields.
Note that the guard only excludes Not started, so a Finished task is reset
as well. -/
def stopClick (t : Task) : Task :=
  if t.status = .notStarted then t
  else
    { t with status := .notStarted, startTime := none, pauseDuration := 0,
             pauseStart := none, endTime := none, duration := none }

/-- The pitBtn (pit-stop) click handler (src/main.js lines 1035-1045): only a
Running task reacts; it becomes Paused with pauseStart = now. -/
def pitClick (now : Int) (t : Task) : Task :=
  if t.status ≠ .running then t
  else { t with status := .paused, pauseStart := some now }

/-- The finishBtn click handler without the points award (src/main.js lines
1050-1067, src/unnamed/part_000 lines 849-865): no-op on Finished, alert and
no-op on Not started; otherwise a Paused task with truthy pauseStart first
drains the pause, then endTime = now, duration = endTime - startTime -
pauseDuration floored at 0, and status becomes Finished. -/
def finishClick (now : Int) (t : Task) : Task :=
  if t.status = .finished then t
  else if t.status = .notStarted then t
  else
    let t1 :=
      if t.status = .paused ∧ truthy t.pauseStart then
        { t with pauseDuration := t.pauseDuration + (now - t.pauseStart.getD 0),
                 pauseStart := none }
      else t
    let rawDur := now - t1.startTime.getD 0 - t1.pauseDuration
    { t1 with endTime := some now,
              duration := some (if rawDur < 0 then 0 else rawDur),
              status := .finished }

/-- The augmented finishBtn click handler (src/main.js lines 1050-1070): on a
successful finish the owning user earns POINTS_PER_TASK points, added to
(points || 0). -/
def finishClickAug (now : Int) (t : Task) (points : Int) : Task × Int :=
  if t.status = .finished then (t, points)
  else if t.status = .notStarted then (t, points)
  else (finishClick now t, jsOr points 0 + POINTS_PER_TASK)

/-- One user-triggered task action together with the wall-clock time at which
its handler runs. -/
inductive Op where
  | start (now : Int)
  | stop
  | pit (now : Int)
  | finish (now : Int)
deriving DecidableEq

/-- Dispatch of one click on a task (base variant handlers). -/
def stepTask (sectorStartTime : Option Int) (t : Task) : Op → Task
  | .start now => startClick sectorStartTime now t
  | .stop => stopClick t
  | .pit now => pitClick now t
  | .finish now => finishClick now t

/-- Dispatch of one click in the augmented variant, acting on the task and
the owning user points. Only the finish handler touches points. -/
def stepAug (sectorStartTime : Option Int) (tp : Task × Int) : Op → Task × Int
  | .finish now => finishClickAug now tp.1 tp.2
  | op => (stepTask sectorStartTime tp.1 op, tp.2)

/-- A sequence of clicks in the augmented variant. -/
def runAug (sectorStartTime : Option Int) (init : Task × Int)
    (ops : List Op) : Task × Int :=
  ops.foldl (stepAug sectorStartTime) init

/-- A SectorRecord: startTime null until the readiness gate, plus an ordered
task list. -/
structure SectorRec where
  startTime : Option Int := none
  tasks : List Task := []
deriving DecidableEq

/-- The fresh task object pushed by the addBtn handler (src/main.js lines
858-867); the random id is a parameter. -/
def freshTask (tid : String) : Task :=
  { id := tid, name := "", status := .notStarted, startTime := none,
    endTime := none, pauseDuration := 0, pauseStart := none, duration := none }

/-- The addBtn click handler (src/main.js lines 848-873): rejected (alert,
none) when sectorData.startTime is truthy or tasks.length >= MAX_TASKS,
otherwise pushes one fresh task. -/
def addTaskClick (tid : String) (s : SectorRec) : Option SectorRec :=
  if truthy s.startTime then none
  else if MAX_TASKS ≤ s.tasks.length then none
  else some { s with tasks := s.tasks ++ [freshTask tid] }

/-- The removeBtn click handler (src/main.js lines 877-894): rejected (alert,
none) when sectorData.startTime is truthy or tasks.length <= MIN_TASKS,
otherwise pops the last task. -/
def removeTaskClick (s : SectorRec) : Option SectorRec :=
  if truthy s.startTime then none
  else if s.tasks.length ≤ MIN_TASKS then none
  else some { s with tasks := s.tasks.dropLast }

/-- The readyBtn click handler outcome (src/main.js lines 903-919): alert and
no state change when tasks.length < MIN_TASKS, otherwise (after the ignition
countdown) startTime = now. -/
def readyClick (now : Int) (s : SectorRec) : SectorRec :=
  if s.tasks.length < MIN_TASKS then s
  else { s with startTime := some now }

/-- ensureCurrentSectorData (src/main.js lines 781-796) restricted to one
sector slot: an existing record is kept, a missing one is created with
startTime null and an empty task list. -/
def ensureSector : Option SectorRec → SectorRec
  | some s => s
  | none => { startTime := none, tasks := [] }

/-- A DayRecord: the sectors mapping with keys 1, 2, 3. -/
structure DayRecord where
  sector1 : Option SectorRec := none
  sector2 : Option SectorRec := none
  sector3 : Option SectorRec := none
deriving DecidableEq

/-- A user record in the data blob. All four fields are optional in the
stored JSON; records pairs each parsed date key with its DayRecord. -/
structure User where
  friends : Option (List String) := none
  friendRequests : Option (List String) := none
  points : Option Int := none
  records : Option (List (Int × DayRecord)) := none
deriving DecidableEq

/-- Contribution of one task to a weekly total: its duration when status is
Finished and duration is a number, else 0 (src/main.js lines 391-395). -/
def taskWeekContribution (t : Task) : Int :=
  match t.status, t.duration with
  | .finished, some d => d
  | _, _ => 0

/-- Total of one optional sector slot inside the leaderboard loop. -/
def sectorDurationSum : Option SectorRec → Int
  | none => 0
  | some s => (s.tasks.map taskWeekContribution).sum

/-- Total of one DayRecord across its three sector slots. -/
def recordDurationSum (r : DayRecord) : Int :=
  sectorDurationSum r.sector1 + sectorDurationSum r.sector2
    + sectorDurationSum r.sector3

/-- The per-user weekly total of computeCurrentWeekLeaderboard: durations of
Finished tasks in DayRecords whose date lies in [monday, saturday]. -/
def weeklyTotal (monday saturday : Int) (u : User) : Int :=
  match u.records with
  | none => 0
  | some rs =>
      (rs.map (fun dr =>
        if monday ≤ dr.1 ∧ dr.1 ≤ saturday then recordDurationSum dr.2
        else 0)).sum

/-- End of the leaderboard window: monday plus 5 days, at 23:59:59.999
(src/main.js lines 378-380). -/
def saturdayEnd (monday : Int) : Int :=
  monday + 5 * 86400000 + (23 * 3600000 + 59 * 60000 + 59 * 1000 + 999)

/-- A leaderboard entry pushed by computeCurrentWeekLeaderboard. -/
structure LBEntry where
  username : String
  totalTimeMs : Int
deriving DecidableEq

/-- The sort comparator (a, b) => a.totalTimeMs - b.totalTimeMs, as the
boolean order its sorted outputs satisfy. -/
def lbLe (a b : LBEntry) : Bool := decide (a.totalTimeMs ≤ b.totalTimeMs)

namespace Base

/-- computeCurrentWeekLeaderboard of the base variant (src/unnamed/part_000
lines 213-246): include a user exactly when the weekly total is positive,
sort ascending by totalTimeMs. The monday parameter stands for
getMonday(today). -/
def computeCurrentWeekLeaderboard (users : List (String × User))
    (monday : Int) : List LBEntry :=
  let saturday := saturdayEnd monday
  (users.filterMap (fun ud =>
    let total := weeklyTotal monday saturday ud.2
    if 0 < total then some { username := ud.1, totalTimeMs := total }
    else none)).mergeSort lbLe

end Base

namespace Aug

/-- computeCurrentWeekLeaderboard of the augmented variant (src/main.js lines
374-409): include a user when the weekly total is positive or the stored
point total (defaulting to 0 when undefined) is positive. -/
def computeCurrentWeekLeaderboard (users : List (String × User))
    (monday : Int) : List LBEntry :=
  let saturday := saturdayEnd monday
  (users.filterMap (fun ud =>
    let total := weeklyTotal monday saturday ud.2
    let pts := ud.2.points.getD 0
    if 0 < total ∨ 0 < pts then some { username := ud.1, totalTimeMs := total }
    else none)).mergeSort lbLe

/-- A combined leaderboard row of renderLeaderboard (src/main.js lines
425-432). -/
structure CombinedEntry where
  username : String
  totalTimeMs : Int
  points : Int
deriving DecidableEq

/-- Point lookup of renderLeaderboard: data.users[r.username].points when the
user exists and points is a number, else 0. -/
def lookupPoints (users : List (String × User)) (name : String) : Int :=
  match users.lookup name with
  | some u => u.points.getD 0
  | none => 0

/-- The combined comparator of renderLeaderboard: higher points first, lower
totalTimeMs as tiebreaker, as the boolean order its sorted outputs satisfy. -/
def combinedLe (a b : CombinedEntry) : Bool :=
  if a.points = b.points then decide (a.totalTimeMs ≤ b.totalTimeMs)
  else decide (b.points < a.points)

/-- The row order rendered by renderLeaderboard (src/main.js lines 414-459)
on the local leaderboard: the computed entries joined with each user's
points, sorted by the combined comparator. -/
def renderLeaderboardOrder (users : List (String × User))
    (monday : Int) : List CombinedEntry :=
  ((computeCurrentWeekLeaderboard users monday).map (fun r =>
    { username := r.username, totalTimeMs := r.totalTimeMs,
      points := lookupPoints users r.username })).mergeSort combinedLe

end Aug

/-- ensureUserSocialData (src/main.js lines 50-63): creates the friends and
friendRequests arrays when missing and initialises points to 0 when
undefined. -/
def ensureUserSocialData (u : User) : User :=
  { u with friends := some (u.friends.getD []),
           friendRequests := some (u.friendRequests.getD []),
           points := some (u.points.getD 0) }

/-- addFriendLocal (src/main.js lines 69-89) acting on the two distinct user
records data.users[cu] (the current user a) and data.users[friend] (b): both
are ensured, each gains the other as a friend unless already present, and
the first pending request entry for the other is spliced out of each
friendRequests list. -/
def addFriendLocal (cu friend : String) (a b : User) : User × User :=
  let a1 := ensureUserSocialData a
  let b1 := ensureUserSocialData b
  let a2 :=
    if (a1.friends.getD []).contains friend then a1
    else { a1 with friends := some (a1.friends.getD [] ++ [friend]) }
  let b2 :=
    if (b1.friends.getD []).contains cu then b1
    else { b1 with friends := some (b1.friends.getD [] ++ [cu]) }
  let a3 := { a2 with friendRequests := some ((a2.friendRequests.getD []).erase friend) }
  let b3 := { b2 with friendRequests := some ((b2.friendRequests.getD []).erase cu) }
  (a3, b3)

/-- String(n).padStart(2, "0") for a natural number. -/
def pad2 (n : Nat) : String :=
  if n < 10 then "0" ++ toString n else toString n

/-- formatDuration (src/main.js lines 118-129) on integer milliseconds. -/
def formatDuration (ms : Int) : String :=
  if ms < 0 then "00:00"
  else
    let totalSeconds := (ms / 1000).toNat
    let hours := totalSeconds / 3600
    let minutes := totalSeconds % 3600 / 60
    let seconds := totalSeconds % 60
    if 0 < hours then pad2 hours ++ ":" ++ pad2 minutes ++ ":" ++ pad2 seconds
    else pad2 minutes ++ ":" ++ pad2 seconds

/-- The mutable context updateSectorTimer runs in: the sector record, the
timer display text and whether the 1-second interval is still armed. -/
structure TimerState where
  sectorData : SectorRec
  timerText : String := ""
  intervalActive : Bool := false
deriving DecidableEq

/-- updateSectorTimer (src/main.js lines 1097-1116): before the sector starts
it shows the full duration; afterwards it shows the remaining time, and when
remaining <= 0 it pins the display at 00:00 and clears the interval. It
renders the task rows but never writes any task field. -/
def updateSectorTimer (now : Int) (st : TimerState) : TimerState :=
  if !truthy st.sectorData.startTime then
    { st with timerText := formatDuration SECTOR_DURATION_MS }
  else
    let elapsed := now - st.sectorData.startTime.getD 0
    let remaining := SECTOR_DURATION_MS - elapsed
    if remaining ≤ 0 then { st with timerText := "00:00", intervalActive := false }
    else { st with timerText := formatDuration remaining }


/-- Evaluation rule for truthiness of a present number. -/
theorem truthy_some (v : Int) : truthy (some v) = (v != 0) := rfl

/-- Claim C1: at every Running-or-Paused-to-Finished transition (the finish
handler applied to a task that is neither Finished nor Not started, with a
truthy pauseStart whenever it is Paused), the duration field is assigned
max(0, endTime - startTime - pauseDuration), where pauseStart is first
drained into pauseDuration when the task was Paused, endTime is set to the
current time, and the status becomes Finished. -/
theorem finishClick_sets_duration (now : Int) (t : Task)
    (hf : t.status ≠ .finished) (hn : t.status ≠ .notStarted)
    (hp : t.status = .paused → truthy t.pauseStart = true) :
    (finishClick now t).status = .finished ∧
    (finishClick now t).endTime = some now ∧
    (finishClick now t).pauseDuration =
      (if t.status = .paused then t.pauseDuration + (now - t.pauseStart.getD 0)
       else t.pauseDuration) ∧
    (finishClick now t).duration =
      some (max 0 (now - t.startTime.getD 0 -
        (if t.status = .paused then t.pauseDuration + (now - t.pauseStart.getD 0)
         else t.pauseDuration))) := by
  have hc : t.status = .running ∨ t.status = .paused := by
    cases h : t.status <;> simp_all
  rcases hc with h | h
  · have hstep : finishClick now t =
        { t with endTime := some now,
                 duration := some (if now - t.startTime.getD 0 - t.pauseDuration < 0 then 0
                                   else now - t.startTime.getD 0 - t.pauseDuration),
                 status := .finished } := by
      simp [finishClick, h]
    rw [hstep]
    refine ⟨rfl, rfl, by simp [h], ?_⟩
    simp only [h, reduceCtorEq, if_false]
    congr 1
    omega
  · have hps := hp h
    have hstep : finishClick now t =
        { t with pauseDuration := t.pauseDuration + (now - t.pauseStart.getD 0),
                 pauseStart := none,
                 endTime := some now,
                 duration := some (if now - t.startTime.getD 0 -
                                      (t.pauseDuration + (now - t.pauseStart.getD 0)) < 0
                                   then 0
                                   else now - t.startTime.getD 0 -
                                      (t.pauseDuration + (now - t.pauseStart.getD 0))),
                 status := .finished } := by
      simp [finishClick, h, hps]
    rw [hstep]
    refine ⟨rfl, rfl, by simp [h], ?_⟩
    simp only [h, if_pos]
    congr 1
    omega

/-- Witness for claim C1: a Paused task started at 100 with 50 ms of
accumulated pause and a pause running since 500, finished at 900, ends with
duration 900 - 100 - (50 + 400) = 350. -/
theorem finishClick_sets_duration_witness :
    (finishClick 900 { status := .paused, startTime := some 100,
                       pauseStart := some 500, pauseDuration := 50 }).duration = some 350 := by
  have h := finishClick_sets_duration 900
    { status := .paused, startTime := some 100, pauseStart := some 500, pauseDuration := 50 }
    (by decide) (by decide) (fun _ => by decide)
  rw [h.2.2.2]
  decide

/-- Claim C2 counterexample: the stop handler applied to a Finished task
changes its status away from Finished and clears its duration, so the
Finished state is not irreversible under every subsequent operation. -/
theorem stop_resets_finished_cex :
    ({ status := .finished, startTime := some 1000, endTime := some 6000,
       duration := some 5000 : Task }).status = Status.finished ∧
    (stopClick { status := .finished, startTime := some 1000, endTime := some 6000,
                 duration := some 5000 }).status ≠ Status.finished ∧
    (stopClick { status := .finished, startTime := some 1000, endTime := some 6000,
                 duration := some 5000 }).duration ≠
      ({ status := .finished, startTime := some 1000, endTime := some 6000,
         duration := some 5000 : Task }).duration := by
  decide

/-- Claim C2 as amended: a Finished task is left completely unchanged by the
start, pit-stop and finish handlers, but the explicit stop (reset) handler
does apply to it, returning it to Not started and clearing its duration. -/
theorem finished_terminal_except_stop (t : Task) (h : t.status = .finished) :
    (∀ st now, startClick st now t = t) ∧
    (∀ now, pitClick now t = t) ∧
    (∀ now, finishClick now t = t) ∧
    (stopClick t).status = .notStarted ∧
    (stopClick t).duration = none := by
  refine ⟨?_, ?_, ?_, ?_, ?_⟩ <;> simp [startClick, pitClick, finishClick, stopClick, h]

/-- Witness for claim C2: the stop handler resets a concrete Finished task to
Not started. -/
theorem finished_terminal_except_stop_witness :
    (stopClick { status := .finished, startTime := some 1000, endTime := some 6000,
                 duration := some 5000 }).status = Status.notStarted := by
  exact (finished_terminal_except_stop
    { status := .finished, startTime := some 1000, endTime := some 6000,
      duration := some 5000 } (by decide)).2.2.2.1

/-- Claim C4: for any sequence of pause (pit-stop) and resume (start while
Paused) cycles on a Running task inside a started sector, with nonzero pause
timestamps, the cumulative pauseDuration after the sequence equals its value
before plus the sum of the lengths of all completed pause intervals,
whatever the number of cycles; the task ends Running. -/
theorem pauseDuration_accumulates (s : Option Int) (hs : truthy s = true)
    (ivs : List (Int × Int)) (t : Task) (ht : t.status = .running)
    (hnz : ∀ iv ∈ ivs, iv.1 ≠ 0) :
    ((ivs.foldl (fun u iv => startClick s iv.2 (pitClick iv.1 u)) t).status = .running) ∧
    ((ivs.foldl (fun u iv => startClick s iv.2 (pitClick iv.1 u)) t).pauseDuration
      = t.pauseDuration + (ivs.map (fun iv => iv.2 - iv.1)).sum) := by
  induction ivs generalizing t with
  | nil => exact ⟨by simpa using ht, by simp⟩
  | cons iv rest ih =>
    have hnz1 : truthy (some iv.1) = true := by
      simp [truthy_some, hnz iv (by simp)]
    have hstep : startClick s iv.2 (pitClick iv.1 t) =
        { t with pauseDuration := t.pauseDuration + (iv.2 - iv.1),
                 pauseStart := none, status := .running } := by
      simp [pitClick, startClick, ht, hs, hnz1]
    have hrest : ∀ iv2 ∈ rest, iv2.1 ≠ 0 := fun iv2 hm => hnz iv2 (by simp [hm])
    have hih := ih { t with pauseDuration := t.pauseDuration + (iv.2 - iv.1),
                            pauseStart := none, status := .running } rfl hrest
    simp only [List.foldl_cons, hstep]
    refine ⟨hih.1, ?_⟩
    rw [hih.2]
    simp only [List.map_cons, List.sum_cons]
    omega

/-- Witness for claim C4: two pause intervals of lengths 3 and 6 accumulate a
pauseDuration of 9. -/
theorem pauseDuration_accumulates_witness :
    (([((5 : Int), (8 : Int)), (20, 26)]).foldl
        (fun u iv => startClick (some 1) iv.2 (pitClick iv.1 u))
        { status := .running }).pauseDuration = 9 := by
  have h := pauseDuration_accumulates (some 1) (by decide) [(5, 8), (20, 26)]
      { status := .running } rfl (by decide)
  rw [h.2]
  decide

/-- Claim C5: in a sector whose task list respects the upper bound and whose
startTime is not the (unreachable) timestamp 0, adding a task is rejected
exactly when startTime is set or the list has 15 tasks, and otherwise
appends one fresh Not started task; removing is rejected exactly when
startTime is set or the list has 4 or fewer tasks, and otherwise removes the
last task; both succeed for any length strictly between 4 and 15 before the
sector starts. -/
theorem addRemoveTask_bounds (s : SectorRec) (tid : String)
    (hlen : s.tasks.length ≤ 15) (hzero : s.startTime ≠ some 0) :
    (addTaskClick tid s = none ↔ (s.startTime ≠ none ∨ s.tasks.length = 15)) ∧
    (s.startTime = none → s.tasks.length < 15 →
      addTaskClick tid s = some { s with tasks := s.tasks ++ [freshTask tid] }) ∧
    (removeTaskClick s = none ↔ (s.startTime ≠ none ∨ s.tasks.length ≤ 4)) ∧
    (s.startTime = none → 4 < s.tasks.length →
      removeTaskClick s = some { s with tasks := s.tasks.dropLast }) ∧
    (s.startTime = none → 4 < s.tasks.length → s.tasks.length < 15 →
      (addTaskClick tid s).isSome ∧ (removeTaskClick s).isSome) := by
  cases hst : s.startTime with
  | some v =>
      have hv : v ≠ 0 := fun h => hzero (by rw [hst, h])
      simp [addTaskClick, removeTaskClick, truthy, hst, hv]
  | none =>
      have htr : truthy s.startTime = false := by simp [truthy, hst]
      refine ⟨?_, ?_, ?_, ?_, ?_⟩
      · simp only [addTaskClick, htr, Bool.false_eq_true, if_false, hst]
        split <;> simp_all [MAX_TASKS] <;> omega
      · intro _ hlt
        simp only [addTaskClick, htr, Bool.false_eq_true, if_false]
        rw [if_neg (by simp [MAX_TASKS]; omega), hst]
      · simp only [removeTaskClick, htr, Bool.false_eq_true, if_false, hst]
        split <;> simp_all [MIN_TASKS]
      · intro _ hlt
        simp only [removeTaskClick, htr, Bool.false_eq_true, if_false]
        rw [if_neg (by simp [MIN_TASKS]; omega), hst]
      · intro _ h4 h15
        constructor
        · simp only [addTaskClick, htr, Bool.false_eq_true, if_false]
          rw [if_neg (by simp [MAX_TASKS]; omega)]
          simp
        · simp only [removeTaskClick, htr, Bool.false_eq_true, if_false]
          rw [if_neg (by simp [MIN_TASKS]; omega)]
          simp

/-- Witness for claim C5: with 5 tasks and no start time, both add and remove
succeed. -/
theorem addRemoveTask_bounds_witness :
    (addTaskClick "x" { startTime := none, tasks := List.replicate 5 (freshTask "a") }).isSome ∧
    (removeTaskClick { startTime := none, tasks := List.replicate 5 (freshTask "a") }).isSome := by
  exact (addRemoveTask_bounds { startTime := none, tasks := List.replicate 5 (freshTask "a") }
    "x" (by decide) (by decide)).2.2.2.2 rfl (by decide) (by decide)

/-- Claim C6 counterexample: a sector record freshly created by the
ensure-sector step has startTime null and an empty task list, so its length
0 violates the claimed lower bound 4. -/
theorem sector_created_empty_cex :
    (ensureSector none).startTime = none ∧
    (ensureSector none).tasks.length = 0 ∧
    ¬ (4 ≤ (ensureSector none).tasks.length) := by
  decide

/-- Claim C6 as amended: while startTime is null the task list length stays
within [0, 15], not [4, 15]: the sector is created with 0 tasks, creation
and the add and remove handlers preserve the upper bound 15, and the ready
handler refuses to set startTime while fewer than 4 tasks exist (so the
lower bound 4 holds only from the moment startTime is set). -/
theorem sector_task_bound_invariant (s : SectorRec) (hlen : s.tasks.length ≤ 15)
    (tid : String) (now : Int) :
    (ensureSector none).tasks.length = 0 ∧
    (ensureSector none).tasks.length ≤ 15 ∧
    (ensureSector (some s)).tasks.length ≤ 15 ∧
    (∀ s', addTaskClick tid s = some s' → s'.tasks.length ≤ 15) ∧
    (∀ s', removeTaskClick s = some s' → s'.tasks.length ≤ 15) ∧
    (s.tasks.length < 4 → readyClick now s = s) := by
  refine ⟨rfl, by decide, by simpa using hlen, ?_, ?_, ?_⟩
  · intro s' h
    unfold addTaskClick at h
    split_ifs at h with h1 h2
    have hs' : s' = { s with tasks := s.tasks ++ [freshTask tid] } := by
      exact (Option.some.inj h).symm
    subst hs'
    simp [MAX_TASKS] at h2 ⊢
    omega
  · intro s' h
    unfold removeTaskClick at h
    split_ifs at h with h1 h2
    have hs' : s' = { s with tasks := s.tasks.dropLast } := by
      exact (Option.some.inj h).symm
    subst hs'
    simp [List.length_dropLast]
    omega
  · intro h4
    simp [readyClick, MIN_TASKS, h4]

/-- Witness for claim C6: the fresh sector record has exactly 0 tasks. -/
theorem sector_task_bound_invariant_witness :
    (ensureSector none).tasks.length = 0 := by
  exact (sector_task_bound_invariant { startTime := none, tasks := [] } (by decide) "x" 0).1

/-- Claim C9: a tick of the sector timer poll never mutates the sector record
(so no task changes status or any timing field), and once the remaining time
45 minutes - (now - startTime) has reached zero on a started sector, the
tick pins the display at 00:00 and disarms the interval. -/
theorem updateSectorTimer_frame (now : Int) (st : TimerState)
    (h1 : truthy st.sectorData.startTime = true)
    (h2 : SECTOR_DURATION_MS - (now - st.sectorData.startTime.getD 0) ≤ 0) :
    (∀ m u, (updateSectorTimer m u).sectorData = u.sectorData) ∧
    (updateSectorTimer now st).timerText = "00:00" ∧
    (updateSectorTimer now st).intervalActive = false := by
  refine ⟨?_, ?_, ?_⟩
  · intro m u
    simp only [updateSectorTimer]
    split_ifs <;> rfl
  · simp [updateSectorTimer, h1, h2]
  · simp [updateSectorTimer, h1, h2]

/-- Witness for claim C9: one tick past the 45-minute mark on a sector
started at time 1 pins the display at 00:00. -/
theorem updateSectorTimer_frame_witness :
    (updateSectorTimer 2700001 { sectorData := { startTime := some 1, tasks := [] },
                                 timerText := "", intervalActive := true }).timerText = "00:00" := by
  exact (updateSectorTimer_frame 2700001
    { sectorData := { startTime := some 1, tasks := [] },
      timerText := "", intervalActive := true } (by decide) (by decide)).2.1

/-- Evaluation rule: q || 0 is q for every integer q. -/
theorem jsOr_zero (q : Int) : jsOr q 0 = q := by
  unfold jsOr
  split <;> omega

/-- One augmented step either leaves the points unchanged or adds exactly
25. -/
theorem stepAug_points (s : Option Int) (tp : Task × Int) (op : Op) :
    (stepAug s tp op).2 = tp.2 ∨ (stepAug s tp op).2 = tp.2 + 25 := by
  cases op with
  | start now => left; rfl
  | stop => left; rfl
  | pit now => left; rfl
  | finish now =>
      show (finishClickAug now tp.1 tp.2).2 = tp.2 ∨ (finishClickAug now tp.1 tp.2).2 = tp.2 + 25
      unfold finishClickAug
      split_ifs <;> simp [jsOr_zero, POINTS_PER_TASK]

/-- Nonnegativity and divisibility by 25 of the points are preserved by any
sequence of augmented steps. -/
theorem runAug_points_aux (s : Option Int) (ops : List Op) :
    ∀ tp : Task × Int, 0 ≤ tp.2 → (25 : Int) ∣ tp.2 →
      0 ≤ (runAug s tp ops).2 ∧ (25 : Int) ∣ (runAug s tp ops).2 := by
  induction ops with
  | nil => exact fun tp h1 h2 => ⟨h1, h2⟩
  | cons op rest ih =>
      intro tp h1 h2
      have hstep := stepAug_points s tp op
      have h1' : 0 ≤ (stepAug s tp op).2 := by rcases hstep with h | h <;> omega
      have h2' : (25 : Int) ∣ (stepAug s tp op).2 := by
        rcases hstep with h | h
        · rw [h]; exact h2
        · rw [h]; exact dvd_add h2 ⟨1, by ring⟩
      simpa [runAug, List.foldl_cons] using ih (stepAug s tp op) h1' h2'

/-- Claim C10: in the augmented variant each successful finish (on a task
neither Finished nor Not started, hence also on a task re-finished after a
stop reset) adds exactly POINTS_PER_TASK = 25 points, no operation ever
decreases the points, and starting from any nonnegative multiple of 25 (such
as the initial 0) the point total stays a nonnegative multiple of 25 under
every operation sequence. -/
theorem points_award_invariant (s : Option Int) (ops : List Op) (t : Task) (p : Int)
    (hp : 0 ≤ p) (hdvd : (25 : Int) ∣ p) :
    (∀ now u q, u.status ≠ .finished → u.status ≠ .notStarted →
      (stepAug s (u, q) (Op.finish now)).2 = q + POINTS_PER_TASK) ∧
    (∀ op u q, q ≤ (stepAug s (u, q) op).2) ∧
    0 ≤ (runAug s (t, p) ops).2 ∧ (25 : Int) ∣ (runAug s (t, p) ops).2 := by
  refine ⟨?_, ?_, ?_, ?_⟩
  · intro now u q hf hn
    show (finishClickAug now u q).2 = q + POINTS_PER_TASK
    unfold finishClickAug
    rw [if_neg hf, if_neg hn]
    simp [jsOr_zero]
  · intro op u q
    have h := stepAug_points s (u, q) op
    rcases h with h | h <;> rw [h] <;> omega
  · exact (runAug_points_aux s ops (t, p) hp hdvd).1
  · exact (runAug_points_aux s ops (t, p) hp hdvd).2

/-- Witness for claim C10: finishing a concrete Running task awards exactly
the 25-point bonus on top of the initial 0. -/
theorem points_award_invariant_witness :
    (stepAug (some 1) ({ status := .running, startTime := some 10 }, 0) (Op.finish 20)).2
      = 0 + POINTS_PER_TASK := by
  exact (points_award_invariant (some 1) [] { status := .running } 0 le_rfl (dvd_zero 25)).1
    20 { status := .running, startTime := some 10 } 0 (by decide) (by decide)

/-- Proof helper: the update addFriendLocal applies to one of the two user
records, where other is the name being befriended by that record. -/
def acceptSide (other : String) (u : User) : User :=
  let u1 := ensureUserSocialData u
  let u2 :=
    if (u1.friends.getD []).contains other then u1
    else { u1 with friends := some (u1.friends.getD [] ++ [other]) }
  { u2 with friendRequests := some ((u2.friendRequests.getD []).erase other) }

/-- Field-wise extensionality for User. -/
theorem UserExt (x y : User) (h1 : x.friends = y.friends)
    (h2 : x.friendRequests = y.friendRequests) (h3 : x.points = y.points)
    (h4 : x.records = y.records) : x = y := by
  cases x
  cases y
  simp_all

/-- One acceptance side leaves exactly one occurrence of the accepted name in
the friends list, provided the list held at most one before. -/
theorem acceptSide_friends_count (other : String) (u : User)
    (h : (u.friends.getD []).count other ≤ 1) :
    ((acceptSide other u).friends.getD []).count other = 1 := by
  by_cases hm : other ∈ u.friends.getD []
  · have hpos : 0 < (u.friends.getD []).count other := List.count_pos_iff.mpr hm
    simp [acceptSide, ensureUserSocialData, hm]
    omega
  · have hz : (u.friends.getD []).count other = 0 := List.count_eq_zero.mpr hm
    simp [acceptSide, ensureUserSocialData, hm, List.count_append, hz]

/-- One acceptance side removes every pending request from the accepted name,
provided at most one was pending. -/
theorem acceptSide_requests (other : String) (u : User)
    (h : (u.friendRequests.getD []).count other ≤ 1) :
    other ∉ (acceptSide other u).friendRequests.getD [] := by
  have hkey : other ∉ (u.friendRequests.getD []).erase other := by
    rw [← List.count_eq_zero, List.count_erase_self]
    omega
  by_cases hm : other ∈ u.friends.getD [] <;>
    simpa [acceptSide, ensureUserSocialData, hm] using hkey

/-- The friendRequests field produced by one acceptance side. -/
theorem acceptSide_requests_eq (other : String) (u : User) :
    (acceptSide other u).friendRequests = some ((u.friendRequests.getD []).erase other) := by
  by_cases hm : other ∈ u.friends.getD [] <;> simp [acceptSide, ensureUserSocialData, hm]

/-- The points field produced by one acceptance side. -/
theorem acceptSide_points (other : String) (u : User) :
    (acceptSide other u).points = some (u.points.getD 0) := by
  by_cases hm : other ∈ u.friends.getD [] <;> simp [acceptSide, ensureUserSocialData, hm]

/-- After one acceptance side the friends list is present and holds the
accepted name. -/
theorem acceptSide_friends_exists (other : String) (u : User) :
    ∃ L, (acceptSide other u).friends = some L ∧ other ∈ L := by
  by_cases hm : other ∈ u.friends.getD []
  · exact ⟨u.friends.getD [], by simp [acceptSide, ensureUserSocialData, hm], hm⟩
  · exact ⟨u.friends.getD [] ++ [other],
      by simp [acceptSide, ensureUserSocialData, hm], by simp⟩

/-- A record that already holds the accepted friend, has no pending request
from them and has all social fields present is a fixed point of the
acceptance side. -/
theorem acceptSide_fixed (other : String) (v : User)
    (hf : other ∈ v.friends.getD [])
    (hfs : v.friends = some (v.friends.getD []))
    (hr : other ∉ v.friendRequests.getD [])
    (hrs : v.friendRequests = some (v.friendRequests.getD []))
    (hps : v.points = some (v.points.getD 0)) :
    acceptSide other v = v := by
  apply UserExt
  · simp only [acceptSide, ensureUserSocialData]
    simp [hf]
    exact hfs.symm
  · simp only [acceptSide, ensureUserSocialData]
    simp [hf, List.erase_of_not_mem hr]
    exact hrs.symm
  · simp only [acceptSide, ensureUserSocialData]
    simp [hf]
    exact hps.symm
  · simp only [acceptSide, ensureUserSocialData]
    simp [hf]

/-- Applying the same acceptance side twice equals applying it once, provided
at most one request from the accepted name was pending initially. -/
theorem acceptSide_idem (other : String) (u : User)
    (hrc : (u.friendRequests.getD []).count other ≤ 1) :
    acceptSide other (acceptSide other u) = acceptSide other u := by
  obtain ⟨L, hL, hmL⟩ := acceptSide_friends_exists other u
  have hreq : other ∉ (u.friendRequests.getD []).erase other := by
    rw [← List.count_eq_zero, List.count_erase_self]
    omega
  apply acceptSide_fixed
  · rw [hL]
    simpa using hmL
  · rw [hL]
    simp
  · rw [acceptSide_requests_eq]
    simpa using hreq
  · rw [acceptSide_requests_eq]
    simp
  · rw [acceptSide_points]
    simp

/-- Claim C8: friend-request acceptance between two distinct users whose
relevant lists hold at most one copy of the other name (as every reachable
state does) is symmetric and idempotent: afterwards each user holds the
other in their friends list exactly once, neither has a pending request from
the other, and a second application changes nothing. The distinctness
hypothesis records that the two-record model only represents the case where
currentUser and friend are different keys of data.users. -/
theorem addFriendLocal_symmetric_idempotent (cu friend : String) (a b : User)
    (hne : cu ≠ friend)
    (h1 : (a.friends.getD []).count friend ≤ 1)
    (h2 : (b.friends.getD []).count cu ≤ 1)
    (h3 : (a.friendRequests.getD []).count friend ≤ 1)
    (h4 : (b.friendRequests.getD []).count cu ≤ 1) :
    (((addFriendLocal cu friend a b).1.friends.getD []).count friend = 1) ∧
    (((addFriendLocal cu friend a b).2.friends.getD []).count cu = 1) ∧
    friend ∉ (addFriendLocal cu friend a b).1.friendRequests.getD [] ∧
    cu ∉ (addFriendLocal cu friend a b).2.friendRequests.getD [] ∧
    addFriendLocal cu friend (addFriendLocal cu friend a b).1
        (addFriendLocal cu friend a b).2 = addFriendLocal cu friend a b := by
  have heq : ∀ x y : User, addFriendLocal cu friend x y = (acceptSide friend x, acceptSide cu y) :=
    fun x y => rfl
  rw [heq]
  refine ⟨acceptSide_friends_count friend a h1, acceptSide_friends_count cu b h2,
          acceptSide_requests friend a h3, acceptSide_requests cu b h4, ?_⟩
  rw [heq, Prod.mk.injEq]
  exact ⟨acceptSide_idem friend a h3, acceptSide_idem cu b h4⟩

/-- Witness for claim C8: alice accepting the pending request from bob ends
with exactly one copy of bob among her friends. -/
theorem addFriendLocal_symmetric_idempotent_witness :
    (((addFriendLocal "alice" "bob" { friendRequests := some ["bob"] } {}).1.friends.getD
        []).count "bob") = 1 := by
  exact (addFriendLocal_symmetric_idempotent "alice" "bob" { friendRequests := some ["bob"] } {}
    (by decide) (by decide) (by decide) (by decide) (by decide)).1

/-- The leaderboard comparator is transitive. -/
theorem lbLe_trans : ∀ a b c : LBEntry,
    lbLe a b = true → lbLe b c = true → lbLe a c = true := by
  intro a b c h1 h2
  simp only [lbLe, decide_eq_true_eq] at h1 h2 ⊢
  omega

/-- The leaderboard comparator is total. -/
theorem lbLe_total : ∀ a b : LBEntry, (lbLe a b || lbLe b a) = true := by
  intro a b
  simp only [lbLe, Bool.or_eq_true, decide_eq_true_eq]
  omega

/-- Claim C3: in the base variant the leaderboard contains an entry exactly
for the users whose summed duration of Finished tasks in DayRecords dated
inside the Monday-to-Saturday window is strictly positive, that entry
carries exactly this sum as totalTimeMs (records dated outside the window
contribute nothing, as the window test inside weeklyTotal discards them),
and the list is sorted ascending by totalTimeMs. -/
theorem base_leaderboard_spec (users : List (String × User)) (monday : Int) :
    (∀ e, e ∈ Base.computeCurrentWeekLeaderboard users monday ↔
      ∃ ud ∈ users, e.username = ud.1 ∧
        e.totalTimeMs = weeklyTotal monday (saturdayEnd monday) ud.2 ∧
        0 < weeklyTotal monday (saturdayEnd monday) ud.2) ∧
    (Base.computeCurrentWeekLeaderboard users monday).Pairwise
      (fun a b => a.totalTimeMs ≤ b.totalTimeMs) := by
  constructor
  · intro e
    unfold Base.computeCurrentWeekLeaderboard
    rw [(List.mergeSort_perm _ lbLe).mem_iff, List.mem_filterMap]
    constructor
    · rintro ⟨ud, hmem, hf⟩
      simp only [Option.ite_none_right_eq_some, Option.some.injEq] at hf
      obtain ⟨hpos, heq⟩ := hf
      subst heq
      exact ⟨ud, hmem, rfl, rfl, hpos⟩
    · rintro ⟨ud, hmem, hu, ht, hpos⟩
      refine ⟨ud, hmem, ?_⟩
      simp only [Option.ite_none_right_eq_some, Option.some.injEq]
      refine ⟨hpos, ?_⟩
      cases e
      simp_all
  · exact (List.sorted_mergeSort lbLe_trans lbLe_total _).imp
      (fun h => by simpa [lbLe] using h)

/-- The combined comparator is transitive. -/
theorem combinedLe_trans : ∀ a b c : Aug.CombinedEntry,
    Aug.combinedLe a b = true → Aug.combinedLe b c = true → Aug.combinedLe a c = true := by
  intro a b c h1 h2
  simp only [Aug.combinedLe] at h1 h2 ⊢
  split_ifs at h1 h2 ⊢ <;> simp_all <;> omega

/-- The combined comparator is total. -/
theorem combinedLe_total : ∀ a b : Aug.CombinedEntry,
    (Aug.combinedLe a b || Aug.combinedLe b a) = true := by
  intro a b
  simp only [Aug.combinedLe, Bool.or_eq_true]
  split_ifs <;> simp_all <;> omega

/-- Claim C7: in the augmented variant a user appears on the weekly
leaderboard exactly when their weekly Finished-duration total is positive or
their stored point total is positive (even with zero duration), and the
rendered rows are ordered by descending points with ascending summed
duration as tiebreaker. -/
theorem aug_leaderboard_spec (users : List (String × User)) (monday : Int) :
    (∀ e, e ∈ Aug.computeCurrentWeekLeaderboard users monday ↔
      ∃ ud ∈ users, e.username = ud.1 ∧
        e.totalTimeMs = weeklyTotal monday (saturdayEnd monday) ud.2 ∧
        (0 < weeklyTotal monday (saturdayEnd monday) ud.2 ∨ 0 < ud.2.points.getD 0)) ∧
    (Aug.renderLeaderboardOrder users monday).Pairwise
      (fun a b => b.points < a.points ∨
        (a.points = b.points ∧ a.totalTimeMs ≤ b.totalTimeMs)) := by
  constructor
  · intro e
    unfold Aug.computeCurrentWeekLeaderboard
    rw [(List.mergeSort_perm _ lbLe).mem_iff, List.mem_filterMap]
    constructor
    · rintro ⟨ud, hmem, hf⟩
      simp only [Option.ite_none_right_eq_some, Option.some.injEq] at hf
      obtain ⟨hpos, heq⟩ := hf
      subst heq
      exact ⟨ud, hmem, rfl, rfl, hpos⟩
    · rintro ⟨ud, hmem, hu, ht, hpos⟩
      refine ⟨ud, hmem, ?_⟩
      simp only [Option.ite_none_right_eq_some, Option.some.injEq]
      refine ⟨hpos, ?_⟩
      cases e
      simp_all
  · refine (List.sorted_mergeSort combinedLe_trans combinedLe_total _).imp ?_
    intro a b h
    simp only [Aug.combinedLe] at h
    split_ifs at h with hp
    · exact Or.inr ⟨hp, by simpa using h⟩
    · exact Or.inl (by simpa using h)

end WGP
